import Mathlib

/-
Verification of the browser-peers library against its design description.

The development shallowly embeds the request/response correlator (`src/peer.js`),
the window-group membership protocol (`src/windowpeer.js`) and the serializable
error channel (`src/errors.js`).  JavaScript `Map` objects are embedded as
association lists with JS `Map` semantics (`aget`/`aset`/`adel`), JS values
as the inductive `JSVal`, and JSON documents as the inductive `Json`.
-/

namespace BrowserPeers

/-! ## Association-list model of JavaScript `Map` -/

/-- Embeds `Map.get`: value stored at the first (and, for genuine maps, only) entry
with the given key, `none` when the key is absent (JS returns `undefined`). -/
def aget [DecidableEq α] : List (α × β) → α → Option β
  | [], _ => none
  | (k, v) :: t, a => if k = a then some v else aget t a

/-- Embeds `Map.set`: replace the entry in place when the key is present, otherwise
append a new entry (JS `Map` preserves insertion order). -/
def aset [DecidableEq α] : List (α × β) → α → β → List (α × β)
  | [], a, b => [(a, b)]
  | (k, v) :: t, a, b => if k = a then (a, b) :: t else (k, v) :: aset t a b

/-- Embeds `Map.delete`: remove the entry with the given key, if any. -/
def adel [DecidableEq α] : List (α × β) → α → List (α × β)
  | [], _ => []
  | (k, v) :: t, a => if k = a then t else (k, v) :: adel t a

/-- The keys of a map, in insertion order. -/
def akeys (l : List (α × β)) : List α := l.map Prod.fst

/-! ## JavaScript values

Handlers registered with a `Peer` are arbitrary JS values: functions, or
objects whose attributes are walked by dotted handler descriptors.  Function
bodies are drawn from the small universe `FnCode`; `applyFn` gives the settled
outcome of `Promise.resolve(handler(args))`, so a synchronous `throw` and an
asynchronous rejection land in the same `.error` case, exactly as both are
funnelled into the single `.catch` in `handleRequest`. -/

/-- An error value thrown or rejected inside `peer.js`; only its `message`
is ever consulted by the correlator. -/
structure PeerError where
  message : String
deriving Repr, DecidableEq

inductive FnCode where
  /-- the handler `() => 42` used by the dotted-lookup example -/
  | const42 : FnCode
  /-- a handler that throws (or returns a promise rejecting with) an `Error`
  carrying the given message -/
  | throws (message : String) : FnCode
  /-- the built-in `ready` handler (returns `readyPromise`, which settles
  with `undefined`) -/
  | ready : FnCode
deriving Repr, DecidableEq

inductive JSVal where
  | vundefined : JSVal
  | vnull : JSVal
  | vbool (b : Bool) : JSVal
  | vnum (n : Int) : JSVal
  | vstr (s : String) : JSVal
  | vfn (code : FnCode) : JSVal
  | vobj (fields : List (String × JSVal)) : JSVal

/-- JS truthiness of a value. -/
def jsTruthy : JSVal → Bool
  | .vundefined => false
  | .vnull => false
  | .vbool b => b
  | .vnum n => n != 0
  | .vstr s => s != ""
  | .vfn _ => true
  | .vobj _ => true

/-- Property access `v[part]` as performed by the descriptor walk.  Own
properties of objects are looked up; on every other value the accesses made
by `lookupHandler` yield `undefined`.  (The walk only ever dereferences a
truthy value, so the `null`/`undefined` `TypeError` cases cannot arise.) -/
def getProp : JSVal → String → JSVal
  | .vobj fields, part => (aget fields part).getD .vundefined
  | _, _ => .vundefined

/-- Settled outcome of `Promise.resolve(handler(args))`. -/
def applyFn (code : FnCode) (_thisArg : Option JSVal) (_args : JSVal) :
    Except PeerError JSVal :=
  match code with
  | .const42 => .ok (.vnum 42)
  | .throws m => .error ⟨m⟩
  | .ready => .ok .vundefined

/-! ## `peer.js`: handler registry -/

/-- Names of the built-in handlers installed by the `Peer` constructor. -/
def builtInHandlerNames : List String := ["ready"]

/-- The `handlers` map right after `Peer` construction. -/
def initialHandlers : List (String × JSVal) := [("ready", .vfn .ready)]

/-- Embeds `Peer.addHandler`: refuses reserved (built-in) names, otherwise stores
the handler. -/
def addHandler (handlers : List (String × JSVal)) (name : String) (handler : JSVal) :
    Except PeerError (List (String × JSVal)) :=
  if name ∈ builtInHandlerNames then
    .error ⟨s!"Cannot register handler under reserved name: {name}"⟩
  else
    .ok (aset handlers name handler)

/-- Splitting a character list at a separator.  `splitChars sep cs` mirrors
JS `String.prototype.split` with a one-character separator: it always returns
at least one (possibly empty) segment. -/
def splitChars (sep : Char) : List Char → List (List Char)
  | [] => [[]]
  | c :: t =>
    if c = sep then [] :: splitChars sep t
    else
      match splitChars sep t with
      | [] => [[c]]
      | h :: r => (c :: h) :: r

/-- Embeds `descrip.split('.')`, kernel-computable rendering. -/
def splitOnDot (s : String) : List String :=
  (splitChars '.' s.data).map (fun cs => String.mk cs)

/-- The attribute walk of `Peer.lookupHandler` after the first segment:
while the current value is truthy, remember it as `prev` and step into the
next attribute; a falsy value breaks out of the loop. -/
def walkParts (handler : JSVal) (prev : Option JSVal) :
    List String → JSVal × Option JSVal
  | [] => (handler, prev)
  | part :: rest =>
    if jsTruthy handler then walkParts (getProp handler part) (some handler) rest
    else (handler, prev)

/-- Embeds `Peer.lookupHandler`: split the descriptor on `.`, look the first segment
up in the handlers map, walk the remaining segments as attribute accesses,
then demand a (truthy) function; a dotted resolution is late-bound to the
previous object in the chain (`handler.bind(prev)`), returned here as the
second component. -/
def lookupHandler (handlers : List (String × JSVal)) (descrip : String) :
    Except PeerError (FnCode × Option JSVal) :=
  match splitOnDot descrip with
  | [] => .error ⟨s!"Unknown handler: {descrip}"⟩
  | p :: rest =>
    let handler0 := (aget handlers p).getD .vundefined
    let (handler, prev) := walkParts handler0 none rest
    if ¬ jsTruthy handler then .error ⟨s!"Unknown handler: {descrip}"⟩
    else
      match handler with
      | .vfn code =>
        match prev with
        | some p => .ok (code, if jsTruthy p then some p else none)
        | none => .ok (code, none)
      | _ => .error ⟨s!"Handler \x22{descrip}\x22 is not a function"⟩

/-! ## `peer.js`: envelopes and request handling -/

/-- A request wrapper message (`type: 'request'`). -/
structure ReqWrapper where
  fromPeer : String
  seqNum : Nat
  handlerDescrip : String
  args : JSVal

/-- A response wrapper message (`type: 'response'`).  A missing `result`
(JS `undefined`) and a `result` explicitly set to `undefined` are both
`none`. -/
structure RespWrapper where
  fromPeer : String
  seqNum : Nat
  result : Option JSVal := none
  rejection_reason : Option String := none

/-- A wrapper handed to `postMessageAsPeer(dest, wrapper)`. -/
structure Posted where
  dest : String
  wrapper : RespWrapper

/-- Embeds `Peer.returnResponse`. -/
def returnResponse (selfName peerName : String) (seqNum : Nat) (result : JSVal) :
    Posted :=
  ⟨peerName, { fromPeer := selfName, seqNum := seqNum, result := some result }⟩

/-- Embeds `Peer.returnRejection`: only the error's message text travels. -/
def returnRejection (selfName peerName : String) (seqNum : Nat) (reason : PeerError) :
    Posted :=
  ⟨peerName, { fromPeer := selfName, seqNum := seqNum,
               rejection_reason := some reason.message }⟩

/-- The base class's `checkHandlingError` hook: returns the reason unchanged.
Subclasses may override it, so `handleRequest` below takes the hook as a
parameter; the base peer instantiates it with this function. -/
def checkHandlingError (reason : PeerError) : PeerError := reason

/-- Embeds `Peer.handleRequest`: resolve the handler (a lookup failure is caught and
sent back as a rejection immediately); otherwise run the handler inside
`Promise.resolve`, returning the result, or — on failure — the rejection
produced from the hooked error.  The returned list holds the messages passed
to `postMessageAsPeer`. -/
def handleRequest (hook : PeerError → PeerError) (selfName : String)
    (handlers : List (String × JSVal)) (w : ReqWrapper) : List Posted :=
  match lookupHandler handlers w.handlerDescrip with
  | .error e => [returnRejection selfName w.fromPeer w.seqNum e]
  | .ok (code, prev) =>
    match applyFn code prev w.args with
    | .ok result => [returnResponse selfName w.fromPeer w.seqNum result]
    | .error reason => [returnRejection selfName w.fromPeer w.seqNum (hook reason)]

/-! ## `peer.js`: response correlation -/

/-- The data stored in `requestsBySeqNum`: the `resolve`/`reject` callbacks
are modelled by the settlement events below; `timeoutArmed` records whether
`timeoutHandle` is non-null. -/
structure ReqData where
  timeoutArmed : Bool
deriving Repr, DecidableEq

/-- Settlement of the promise returned by `makeRequest` for a given sequence
number: resolution by a response, rejection by a rejection response (the
reason string may subsequently be reconstituted into a structured error, see
the errors section), or rejection by the request timeout. -/
inductive SettleEvent where
  | resolved (seqNum : Nat) (result : Option JSVal) : SettleEvent
  | rejected (seqNum : Nat) (reason : String) : SettleEvent
  | timedOut (seqNum : Nat) : SettleEvent

/-- JS truthiness of `wrapper.rejection_reason` (absent or empty string is
falsy). -/
def strTruthy : Option String → Bool
  | none => false
  | some s => s != ""

/-- Embeds `Peer.consumeRequestData`: read and delete the pending entry (the
`clearTimeout` has no further observable effect). -/
def consumeRequestData (pending : List (Nat × ReqData)) (seqNum : Nat) :
    Option ReqData × List (Nat × ReqData) :=
  (aget pending seqNum, adel pending seqNum)

/-- Embeds `Peer.handleResponse`: consume the pending entry for the wrapper's
sequence number; when none exists, do nothing; otherwise settle the pending
promise, branching on the truthiness of `wrapper.rejection_reason`. -/
def handleResponse (pending : List (Nat × ReqData)) (w : RespWrapper) :
    List (Nat × ReqData) × Option SettleEvent :=
  let (data, pending') := consumeRequestData pending w.seqNum
  match data with
  | none => (pending', none)
  | some _ =>
    if strTruthy w.rejection_reason then
      (pending', some (.rejected w.seqNum (w.rejection_reason.getD "")))
    else
      (pending', some (.resolved w.seqNum w.result))

/-! ## `peer.js`: the correlator as a transition system

A peer's correlation state evolves through interleavings of `makeRequest`
calls, deliveries of response wrappers, and request-timeout firings — the
three kinds of `PeerAction`.  `makeRequest` allocates its sequence number via
`takeNextSeqNum` and registers the pending entry (in the default
`doReadyCheck = false` path the executor runs synchronously at call time).
A timeout firing runs the callback installed by `makeRequest`: it consumes
the pending entry and, when one was still there, rejects the promise. -/

structure PeerSt where
  nextSeqNum : Nat
  requestsBySeqNum : List (Nat × ReqData)
deriving Repr, DecidableEq

/-- The correlator state of a freshly constructed peer. -/
def initPeer : PeerSt := ⟨0, []⟩

/-- Embeds `Peer.takeNextSeqNum`. -/
def takeNextSeqNum (st : PeerSt) : Nat × PeerSt :=
  (st.nextSeqNum, { st with nextSeqNum := st.nextSeqNum + 1 })

inductive PeerAction where
  /-- a `makeRequest` call; `timeoutPos` is whether a positive timeout was
  requested -/
  | makeRequest (timeoutPos : Bool) : PeerAction
  /-- the transport delivers a response wrapper to `handleMessage` -/
  | deliverResponse (w : RespWrapper) : PeerAction
  /-- the timer armed for the given sequence number fires -/
  | fireTimeout (seqNum : Nat) : PeerAction

/-- Observable log of a step: the sequence numbers allocated and the promise
settlements performed. -/
inductive LogEvt where
  | alloc (seqNum : Nat) : LogEvt
  | settle (e : SettleEvent) : LogEvt

/-- One step of the correlator. -/
def stepPeer (st : PeerSt) : PeerAction → PeerSt × List LogEvt
  | .makeRequest timeoutPos =>
    let (seqNum, st₁) := takeNextSeqNum st
    ({ st₁ with requestsBySeqNum := aset st₁.requestsBySeqNum seqNum ⟨timeoutPos⟩ },
     [.alloc seqNum])
  | .deliverResponse w =>
    let (pending', settled) := handleResponse st.requestsBySeqNum w
    ({ st with requestsBySeqNum := pending' }, settled.toList.map .settle)
  | .fireTimeout seqNum =>
    let (data, pending') := consumeRequestData st.requestsBySeqNum seqNum
    match data with
    | none => ({ st with requestsBySeqNum := pending' }, [])
    | some _ => ({ st with requestsBySeqNum := pending' },
                 [.settle (.timedOut seqNum)])

/-- Run a trace of actions, collecting the log. -/
def runPeer (st : PeerSt) : List PeerAction → PeerSt × List LogEvt
  | [] => (st, [])
  | a :: tr =>
    let (st', evs) := stepPeer st a
    let (stF, rest) := runPeer st' tr
    (stF, evs ++ rest)

/-- The sequence numbers allocated in a log. -/
def allocSeqs : List LogEvt → List Nat
  | [] => []
  | .alloc n :: t => n :: allocSeqs t
  | .settle _ :: t => allocSeqs t

/-- The sequence number a settlement event settles. -/
def seqOfSettle : SettleEvent → Nat
  | .resolved n _ => n
  | .rejected n _ => n
  | .timedOut n => n

/-- The sequence numbers settled in a log, in order. -/
def settleSeqs : List LogEvt → List Nat
  | [] => []
  | .alloc _ :: t => settleSeqs t
  | .settle e :: t => seqOfSettle e :: settleSeqs t

/-- The number of `makeRequest` actions in a trace. -/
def countMakeRequests : List PeerAction → Nat
  | [] => 0
  | .makeRequest _ :: t => countMakeRequests t + 1
  | .deliverResponse _ :: t => countMakeRequests t
  | .fireTimeout _ :: t => countMakeRequests t

/-! ## `windowpeer.js`: the window-group membership state

Birthdays are `` `${Date.now()}:${Math.random()}` `` strings compared with the
JS `<`/`>` operators; the embedding is generic over any linearly ordered
birthday type `β`.  The `updateMapping` events passed to `dispatch` are
returned explicitly by each operation. -/

/-- Modelled from the spec: `windowpeer.js` imports the error classes
`UnknownPeerError` and `NoGroupError` from `errors.js`, but the revision of
`errors.js` among the available sources predates them and does not define
them.  Per the spec's failure semantics they are two further named error
kinds carrying a message. -/
inductive WPError where
  | unknownPeer (message : String) : WPError
  | noGroup (message : String) : WPError
deriving Repr, DecidableEq

/-- The `updateMapping` event built at the end of `recomputeWindowNumbers`
(the `target` field, a live reference to the peer itself, is omitted). -/
structure WPUpdateEvent (β : Type) where
  mapping : List (Nat × String)
  numberUpdates : List (Nat × Nat)
  deletedNumber : Option Nat
deriving Repr, DecidableEq

/-- The membership-related state of a `WindowPeer`. -/
structure WPState (β : Type) where
  name : String
  windowGroupId : Option String := none
  peerNamesToBirthdays : List (String × β) := []
  windowNumbersToPeerNames : List (Nat × String) := []
  windowNumber : Nat := 0
deriving Repr, DecidableEq

/-- A `WindowPeer` right after construction (respectively right after
`reset()`): empty membership, window number `0`, no group id. -/
def initWP (name : String) : WPState β := { name := name }

/-- The comparator passed to `A.sort` in `recomputeWindowNumbers`, as the
order it sorts by: ascending birthdays. -/
def birthdayLE [LinearOrder β] (p q : String × β) : Prop := p.2 ≤ q.2

instance [LinearOrder β] : DecidableRel (birthdayLE (β := β)) :=
  fun p q => inferInstanceAs (Decidable (p.2 ≤ q.2))

instance [LinearOrder β] : IsTotal (String × β) (birthdayLE (β := β)) :=
  ⟨fun p q => le_total p.2 q.2⟩

instance [LinearOrder β] : IsTrans (String × β) (birthdayLE (β := β)) :=
  ⟨fun _ _ _ h h' => le_trans h h'⟩

/-- The sorted member array `A` of `recomputeWindowNumbers`. -/
def sortedMembers [LinearOrder β] (members : List (String × β)) :
    List (String × β) :=
  List.insertionSort birthdayLE members

/-- The new `windowNumbersToPeerNames` built by `recomputeWindowNumbers`:
entry `i` of the sorted array is assigned window number `i + 1`. -/
def recomputeMapping [LinearOrder β] (members : List (String × β)) :
    List (Nat × String) :=
  (sortedMembers members).enum.map (fun p => (p.1 + 1, p.2.1))

/-- The first loop of `recomputeWindowNumbers`: invert the old mapping into
`peerNamesToOldWindowNumbers` and note the number of a member no longer
present. -/
def oldNumbersInfo [DecidableEq β] (st : WPState β) :
    List (String × Nat) × Option Nat :=
  st.windowNumbersToPeerNames.foldl
    (fun acc p =>
      (aset acc.1 p.2 p.1,
       if (aget st.peerNamesToBirthdays p.2).isNone then some p.1 else acc.2))
    ([], none)

/-- Embeds `WindowPeer.recomputeWindowNumbers`: sort the members by birthday,
renumber them densely from 1, refresh our own window number, and build the
`updateMapping` event (dispatched to listeners; returned here). -/
def recomputeWindowNumbers [LinearOrder β] (st : WPState β) :
    WPState β × WPUpdateEvent β :=
  let (peerNamesToOldWindowNumbers, deletedNumber) := oldNumbersInfo st
  let newMapping := recomputeMapping st.peerNamesToBirthdays
  let newWindowNumber :=
    (sortedMembers st.peerNamesToBirthdays).enum.foldl
      (fun w p => if p.2.1 = st.name then p.1 + 1 else w) st.windowNumber
  let numberUpdates :=
    newMapping.foldl
      (fun acc p =>
        match aget peerNamesToOldWindowNumbers p.2 with
        | some oldNumber => if p.1 ≠ oldNumber then aset acc oldNumber p.1 else acc
        | none => acc)
      []
  ({ st with windowNumbersToPeerNames := newMapping, windowNumber := newWindowNumber },
   { mapping := newMapping, numberUpdates := numberUpdates,
     deletedNumber := deletedNumber })

/-- Embeds `WindowPeer.addPeer`. -/
def addPeer [LinearOrder β] (st : WPState β) (name : String) (birthday : β) :
    WPState β × List (WPUpdateEvent β) :=
  let st' := { st with peerNamesToBirthdays := aset st.peerNamesToBirthdays name birthday }
  let (st'', ev) := recomputeWindowNumbers st'
  (st'', [ev])

/-- Embeds `WindowPeer.removePeer`: `Map.delete` returns whether the key was
present, and the mapping is recomputed (and an event dispatched) only in
that case. -/
def removePeer [LinearOrder β] (st : WPState β) (name : String) :
    WPState β × List (WPUpdateEvent β) :=
  if (aget st.peerNamesToBirthdays name).isSome then
    let st' := { st with peerNamesToBirthdays := adel st.peerNamesToBirthdays name }
    let (st'', ev) := recomputeWindowNumbers st'
    (st'', [ev])
  else
    (st, [])

/-- A membership operation on a `WindowPeer`. -/
inductive WPOp (β : Type) where
  | add (name : String) (birthday : β) : WPOp β
  | remove (name : String) : WPOp β
deriving Repr, DecidableEq

def applyOp [LinearOrder β] (st : WPState β) : WPOp β → WPState β
  | .add name birthday => (addPeer st name birthday).1
  | .remove name => (removePeer st name).1

def applyOps [LinearOrder β] (st : WPState β) (ops : List (WPOp β)) : WPState β :=
  ops.foldl applyOp st

/-- Embeds `WindowPeer.lookUpPeerName`: map a window number to a transport-level
peer name, or throw an `UnknownPeerError`. -/
def lookUpPeerName (st : WPState β) (windowNumber : Nat) :
    Except WPError String :=
  match aget st.windowNumbersToPeerNames windowNumber with
  | none => .error (.unknownPeer s!"Unknown window number: {windowNumber}")
  | some peerName => .ok peerName

/-- Embeds `WindowPeer.makeWindowRequest`: resolve the window number and delegate to
the base class's `makeRequest`; the delegated call is returned as the
`(peerName, handlerDescrip, args)` triple. -/
def makeWindowRequest (st : WPState β) (windowNumber : Nat)
    (handlerDescrip : String) (args : α) :
    Except WPError (String × String × α) :=
  match lookUpPeerName st windowNumber with
  | .error e => .error e
  | .ok peerName => .ok (peerName, handlerDescrip, args)

/-- The wrapper emitted on the transport by `sendWindowEvent`. -/
structure SentWindowEvent (α : Type) where
  room : String
  event : α
  includeSelf : Bool
deriving Repr, DecidableEq

/-- JS truthiness of `this.windowGroupId` (`null` before the first `hello`,
whence falsy). -/
def groupIdTruthy : Option String → Bool
  | none => false
  | some s => s != ""

/-- Embeds `WindowPeer.sendWindowEvent`: `windowNumber = null` (here `none`)
groupcasts to the whole group — requiring a group id — while a numeric
window number is resolved through `lookUpPeerName`. -/
def sendWindowEvent (st : WPState β) (windowNumber : Option Nat) (event : α)
    (includeSelf : Bool) : Except WPError (SentWindowEvent α) :=
  match windowNumber with
  | none =>
    if ¬ groupIdTruthy st.windowGroupId then
      .error (.noGroup "Cannot groupcast without windowGroupId.")
    else
      .ok { room := st.windowGroupId.getD "", event := event, includeSelf := includeSelf }
  | some n =>
    match lookUpPeerName st n with
    | .error e => .error e
    | .ok peerName => .ok { room := peerName, event := event, includeSelf := includeSelf }

/-- Embeds `WindowPeer.groupcastEvent`. -/
def groupcastEvent (st : WPState β) (event : α) (includeSelf : Bool) :
    Except WPError (SentWindowEvent α) :=
  sendWindowEvent st none event includeSelf

/-! ## `errors.js`: the serializable error channel

JSON documents are embedded as the inductive `Json`; a JSON text string is
identified with the document it parses to (JS numbers are modelled as
integers, which covers every value the error classes serialize).  An
`Error.message` string either is the rendering of a document (`jsonText`,
on which `JSON.parse` succeeds) or is not valid JSON (`plainText`, on which
`JSON.parse` throws and the `catch {}` leaves `d = null`). -/

inductive Json where
  | jnull : Json
  | jbool (b : Bool) : Json
  | jnum (n : Int) : Json
  | jstr (s : String) : Json
  | jarr (elems : List Json) : Json
  | jobj (fields : List (String × Json)) : Json

/-- JS truthiness of a parsed JSON value. -/
def jsonTruthy : Json → Bool
  | .jnull => false
  | .jbool b => b
  | .jnum n => n != 0
  | .jstr s => s != ""
  | .jarr _ => true
  | .jobj _ => true

/-- Property access `d[name]` on a parsed JSON value: own properties of
objects; `undefined` (`none`) everywhere else (no such property exists on
the other JSON-producible values). -/
def getField : Json → String → Option Json
  | .jobj fields, name => aget fields name
  | _, _ => none

/-- Whether a JSON value is `null` (rendered empty inside an array). -/
def Json.isNullVal : Json → Bool
  | .jnull => true
  | _ => false

/-- JS `String(v)` coercion of a JSON value, as applied by the `Error`
constructor and by template literals. -/
def jsToString : Json → String
  | .jnull => "null"
  | .jbool b => cond b "true" "false"
  | .jnum n => toString n
  | .jstr s => s
  | .jarr es => String.intercalate ","
      (es.attach.map fun j => if j.1.isNullVal then "" else jsToString j.1)
  | .jobj _ => "[object Object]"
decreasing_by
  have := List.sizeOf_lt_of_mem j.2
  simp only [Json.jarr.sizeOf_spec]
  omega

/-- Embeds `super(message)` in an `Error` subclass constructor: an `undefined`
argument leaves the default empty message, anything else is coerced to a
string. -/
def errorMessageArg : Option Json → String
  | none => ""
  | some v => jsToString v

/-- An instance of one of the registered serializable error classes,
identified by its class and its plain-data fields (each an `Option Json`,
`none` standing for `undefined`).  Derived fields (`name`, and the `message`
templates of the fetch/permission classes) are functions of these.
`FetchResolvedNotOkError` and `FetchRejectedError` never set `contentType`
(their constructors forward neither `contentType` nor `headers`), so it is
not part of their data. -/
inductive KnownError where
  | extensionUnavailable (message : String) : KnownError
  | lackingHostPermission (url : Option Json) : KnownError
  | fetchResolvedNotOk (ok status statusText type url : Option Json) : KnownError
  | fetchRejected (ok status statusText type url : Option Json) : KnownError
  | fetchWrongContentType (ok status statusText type url contentType : Option Json) :
      KnownError

/-- The field `this.name` of each class. -/
def KnownError.className : KnownError → String
  | .extensionUnavailable _ => "ExtensionUnavailableError"
  | .lackingHostPermission _ => "LackingHostPermissionError"
  | .fetchResolvedNotOk _ _ _ _ _ => "FetchResolvedNotOkError"
  | .fetchRejected _ _ _ _ _ => "FetchRejectedError"
  | .fetchWrongContentType _ _ _ _ _ _ => "FetchWrongContentTypeError"

/-- The keys of `KNOWN_ERROR_CLASSES`. -/
def knownErrorClassNames : List String :=
  ["FetchResolvedNotOkError", "FetchRejectedError", "ExtensionUnavailableError",
   "LackingHostPermissionError", "FetchWrongContentTypeError"]

/-- One field of a `JSON.stringify`d object: a field holding `undefined` is
omitted from the output. -/
def optField (name : String) : Option Json → List (String × Json)
  | some j => [(name, j)]
  | none => []

/-- The fields following the `_error_class_name` tag in each class's
`serialize()` output, in source order. -/
def serializeFields : KnownError → List (String × Json)
  | .extensionUnavailable message => [("message", .jstr message)]
  | .lackingHostPermission url => optField "url" url
  | .fetchResolvedNotOk ok status statusText type url =>
      optField "ok" ok ++ optField "status" status ++
      optField "statusText" statusText ++ optField "type" type ++
      optField "url" url ++ optField "contentType" none
  | .fetchRejected ok status statusText type url =>
      optField "ok" ok ++ optField "status" status ++
      optField "statusText" statusText ++ optField "type" type ++
      optField "url" url ++ optField "contentType" none
  | .fetchWrongContentType ok status statusText type url contentType =>
      optField "ok" ok ++ optField "status" status ++
      optField "statusText" statusText ++ optField "type" type ++
      optField "url" url ++ optField "contentType" contentType

/-- Embeds `serialize()`: the JSON document whose `JSON.stringify` rendering is the
returned string. -/
def KnownError.serialize (k : KnownError) : Json :=
  .jobj (("_error_class_name", .jstr k.className) :: serializeFields k)

/-- An `Error.message` string: either the rendering of a JSON document or a
string that is not valid JSON. -/
inductive ErrMessage where
  | jsonText (d : Json) : ErrMessage
  | plainText (s : String) : ErrMessage

/-- A generic `Error`, as handed to `reconstituteError`. -/
structure GenericError where
  message : ErrMessage

/-- Embeds `new ClassConstructor(d)` for the registered class named `tag`, reading
the constructor's destructured arguments off the parsed document `d`
(`undefined` for missing fields).  A `headers` field coming out of
`JSON.parse` is a plain object with no callable `get`, so the
`FetchWrongContentTypeError` constructor's `headers && headers.get` branch
never runs during reconstitution and `contentType` is taken from `d`
directly.  An unregistered tag yields `none`. -/
def constructKnown (tag : String) (d : Json) : Option KnownError :=
  if tag = "FetchResolvedNotOkError" then
    some (.fetchResolvedNotOk (getField d "ok") (getField d "status")
      (getField d "statusText") (getField d "type") (getField d "url"))
  else if tag = "FetchRejectedError" then
    some (.fetchRejected (getField d "ok") (getField d "status")
      (getField d "statusText") (getField d "type") (getField d "url"))
  else if tag = "ExtensionUnavailableError" then
    some (.extensionUnavailable (errorMessageArg (getField d "message")))
  else if tag = "LackingHostPermissionError" then
    some (.lackingHostPermission (getField d "url"))
  else if tag = "FetchWrongContentTypeError" then
    some (.fetchWrongContentType (getField d "ok") (getField d "status")
      (getField d "statusText") (getField d "type") (getField d "url")
      (getField d "contentType"))
  else none

/-- The result of `reconstituteError`: the given error returned unchanged,
or a freshly constructed instance of a registered class. -/
inductive ReconstituteResult where
  | given (e : GenericError) : ReconstituteResult
  | rebuilt (k : KnownError) : ReconstituteResult

/-- Embeds `reconstituteError(error)`: try `JSON.parse(error.message)`; when it
yields a truthy value whose `_error_class_name` is a registered class name,
rebuild an instance of that class from the parsed document, otherwise return
the given error. -/
def reconstituteError (error : GenericError) : ReconstituteResult :=
  match error.message with
  | .plainText _ => .given error
  | .jsonText d =>
    if jsonTruthy d then
      match getField d "_error_class_name" with
      | some (.jstr tag) =>
        match constructKnown tag d with
        | some k => .rebuilt k
        | none => .given error
      | _ => .given error
    else .given error

/-- Whether a parsed document carries an `_error_class_name` tag naming one
of the registered error classes (the `KNOWN_ERROR_CLASSES.has(…)` test). -/
def hasKnownTag (d : Json) : Bool :=
  match getField d "_error_class_name" with
  | some (.jstr tag) => decide (tag ∈ knownErrorClassNames)
  | _ => false

/-- The object `{foo: {bar: () => 42}}` of the dotted-lookup example. -/
def c7obj : JSVal := .vobj [("foo", .vobj [("bar", .vfn .const42)])]

/-- The handlers map after `addHandler('obj', {foo: {bar: () => 42}})` on a
freshly constructed peer. -/
def c7handlers : List (String × JSVal) :=
  [("ready", .vfn .ready), ("obj", c7obj)]

/-- The correlator invariant: no two in-flight pending entries share a
sequence number, and every pending sequence number was allocated in the
past (is below `nextSeqNum`). -/
def InvP (st : PeerSt) : Prop :=
  (akeys st.requestsBySeqNum).Nodup ∧
  ∀ k ∈ akeys st.requestsBySeqNum, k < st.nextSeqNum

/-! ## Lemmas: association lists -/

theorem aget_eq_none_iff [DecidableEq α] (l : List (α × β)) (a : α) :
    aget l a = none ↔ a ∉ akeys l := by
  induction l with
  | nil => simp [aget, akeys]
  | cons h t ih =>
    obtain ⟨k, v⟩ := h
    by_cases hk : k = a
    · subst hk
      simp [aget, akeys]
    · simp [aget, akeys, hk, ih, Ne.symm hk]

theorem adel_of_aget_eq_none [DecidableEq α] (l : List (α × β)) (a : α)
    (h : aget l a = none) : adel l a = l := by
  induction l with
  | nil => simp [adel]
  | cons p t ih =>
    obtain ⟨k, v⟩ := p
    by_cases hk : k = a
    · subst hk
      simp [aget] at h
    · simp [aget, hk] at h
      simp [adel, hk, ih h]

/-! ## Claim theorems -/

/-- C2: a response wrapper whose sequence number has no pending entry in
`requestsBySeqNum` is silently discarded by `handleResponse`: no promise is
settled and the peer's state is left exactly as it was. -/
theorem claim_C2_late_response_is_noop :
    ∀ (pending : List (Nat × ReqData)) (w : RespWrapper),
      aget pending w.seqNum = none →
      handleResponse pending w = (pending, none) := by
  intro pending w h
  simp [handleResponse, consumeRequestData, h, adel_of_aget_eq_none _ _ h]

theorem claim_C2_witness :
    aget ([(3, ⟨true⟩)] : List (Nat × ReqData)) 7 = none ∧
    handleResponse [(3, ⟨true⟩)]
        { fromPeer := "A", seqNum := 7, result := none, rejection_reason := none } =
      ([(3, ⟨true⟩)], none) :=
  ⟨rfl, claim_C2_late_response_is_noop [(3, ⟨true⟩)]
    { fromPeer := "A", seqNum := 7, result := none, rejection_reason := none } rfl⟩

/-- C9: a `rejection_reason` that is present but falsy — in particular the
empty string, exactly what `returnRejection` produces for an `Error` with an
empty message — sends `handleResponse` down the success branch: the pending
promise is resolved with the wrapper's (absent, hence `undefined`) `result`,
not rejected.  The dichotomy is decided by JS truthiness, not field
presence. -/
theorem claim_C9_falsy_rejection_reason_resolves :
    (∀ (pending : List (Nat × ReqData)) (w : RespWrapper),
      (aget pending w.seqNum).isSome →
      w.rejection_reason = some "" →
      handleResponse pending w =
        (adel pending w.seqNum, some (.resolved w.seqNum w.result))) ∧
    (∀ selfName dest seqNum,
      returnRejection selfName dest seqNum ⟨""⟩ =
        ⟨dest, { fromPeer := selfName, seqNum := seqNum, result := none,
                 rejection_reason := some "" }⟩) ∧
    (∀ (pending : List (Nat × ReqData)) (selfName dest : String) (seqNum : Nat),
      (aget pending seqNum).isSome →
      (handleResponse pending (returnRejection selfName dest seqNum ⟨""⟩).wrapper).2 =
        some (.resolved seqNum none)) := by
  refine ⟨?_, ?_, ?_⟩
  · intro pending w h hr
    obtain ⟨d, hd⟩ := Option.isSome_iff_exists.mp h
    simp [handleResponse, consumeRequestData, hd, hr, strTruthy]
  · intro selfName dest seqNum
    rfl
  · intro pending selfName dest seqNum h
    obtain ⟨d, hd⟩ := Option.isSome_iff_exists.mp h
    simp [handleResponse, consumeRequestData, returnRejection, hd, strTruthy]

theorem claim_C9_witness :
    (aget ([(2, ⟨false⟩)] : List (Nat × ReqData)) 2).isSome = true ∧
    handleResponse [(2, ⟨false⟩)]
        { fromPeer := "B", seqNum := 2, result := none, rejection_reason := some "" } =
      ([], some (.resolved 2 none)) := by
  constructor
  · rfl
  · exact (claim_C9_falsy_rejection_reason_resolves.1 [(2, ⟨false⟩)]
      { fromPeer := "B", seqNum := 2, result := none, rejection_reason := some "" }
      rfl rfl)

/-- C10: `removePeer` on a name absent from `peerNamesToBirthdays` leaves the
whole `WindowPeer` state (member map, window mapping and own window number)
untouched and dispatches no `updateMapping` event; recomputation happens only
when a present member is actually deleted. -/
theorem claim_C10_remove_absent_is_noop :
    ∀ (β : Type) (_inst : LinearOrder β) (st : WPState β) (name : String),
      aget st.peerNamesToBirthdays name = none →
      removePeer st name = (st, []) := by
  intro β _inst st name h
  simp [removePeer, h]

theorem claim_C10_witness :
    aget (initWP (β := Nat) "w").peerNamesToBirthdays "ghost" = none ∧
    removePeer (initWP (β := Nat) "w") "ghost" = (initWP "w", []) :=
  ⟨rfl, claim_C10_remove_absent_is_noop Nat inferInstance (initWP "w") "ghost" rfl⟩

/-- C5: looking any window number absent from `windowNumbersToPeerNames` up
— directly through `lookUpPeerName`, or via `makeWindowRequest` or
`sendWindowEvent` with that number — throws an `UnknownPeerError`; and
groupcasting (`sendWindowEvent(null, …)` or `groupcastEvent`) while
`windowGroupId` is still unset throws a `NoGroupError`. -/
theorem claim_C5_unknown_number_and_no_group_errors :
    (∀ (β : Type) (st : WPState β) (w : Nat),
      aget st.windowNumbersToPeerNames w = none →
      lookUpPeerName st w = .error (.unknownPeer s!"Unknown window number: {w}") ∧
      (∀ (α : Type) (handlerDescrip : String) (args : α),
        makeWindowRequest st w handlerDescrip args =
          .error (.unknownPeer s!"Unknown window number: {w}")) ∧
      (∀ (α : Type) (event : α) (includeSelf : Bool),
        sendWindowEvent st (some w) event includeSelf =
          .error (.unknownPeer s!"Unknown window number: {w}"))) ∧
    (∀ (β α : Type) (st : WPState β) (event : α) (includeSelf : Bool),
      st.windowGroupId = none →
      sendWindowEvent st none event includeSelf =
        .error (.noGroup "Cannot groupcast without windowGroupId.") ∧
      groupcastEvent st event includeSelf =
        .error (.noGroup "Cannot groupcast without windowGroupId.")) := by
  constructor
  · intro β st w h
    have hl : lookUpPeerName st w =
        .error (.unknownPeer s!"Unknown window number: {w}") := by
      simp [lookUpPeerName, h]
    exact ⟨hl, fun α d a => by simp [makeWindowRequest, hl],
      fun α ev inc => by simp [sendWindowEvent, hl]⟩
  · intro β α st ev inc h
    have hs : sendWindowEvent st none ev inc =
        .error (.noGroup "Cannot groupcast without windowGroupId.") := by
      simp [sendWindowEvent, h, groupIdTruthy]
    exact ⟨hs, hs⟩

theorem claim_C5_witness :
    aget (initWP (β := Nat) "me").windowNumbersToPeerNames 4 = none ∧
    (initWP (β := Nat) "me").windowGroupId = none ∧
    lookUpPeerName (initWP (β := Nat) "me") 4 =
      .error (.unknownPeer "Unknown window number: 4") ∧
    makeWindowRequest (initWP (β := Nat) "me") 4 "doThing" "payload" =
      .error (.unknownPeer "Unknown window number: 4") ∧
    groupcastEvent (initWP (β := Nat) "me") "hello" true =
      .error (.noGroup "Cannot groupcast without windowGroupId.") := by
  refine ⟨rfl, rfl, ?_, ?_, ?_⟩
  · exact (claim_C5_unknown_number_and_no_group_errors.1 Nat (initWP "me") 4 rfl).1
  · exact (claim_C5_unknown_number_and_no_group_errors.1 Nat (initWP "me") 4 rfl).2.1
      String "doThing" "payload"
  · exact (claim_C5_unknown_number_and_no_group_errors.2 Nat String (initWP "me")
      "hello" true rfl).2

/-- C7 (counterexample): with `{foo: {bar: () => 42}}` registered under
`"obj"`, `lookupHandler("obj.bar")` does NOT succeed: `handlers.get("obj")`
has no `bar` attribute, so the walk reaches `undefined` and the lookup
throws `Unknown handler: obj.bar`. -/
theorem claim_C7_counterexample :
    addHandler initialHandlers "obj" c7obj = .ok c7handlers ∧
    lookupHandler c7handlers "obj.bar" =
      .error ⟨"Unknown handler: obj.bar"⟩ :=
  ⟨rfl, rfl⟩

/-- C7 (amended): with `{foo: {bar: () => 42}}` registered under `"obj"`,
it is `lookupHandler("obj.foo.bar")` that succeeds: resolution passes
through `handlers.get("obj")`, then the `.foo` attribute, then the `.bar`
attribute, and the returned callable is late-bound with the intermediate
object `obj.foo` as its implicit receiver; invoking it returns `42`. -/
theorem claim_C7_amended_dotted_lookup :
    addHandler initialHandlers "obj" c7obj = .ok c7handlers ∧
    lookupHandler c7handlers "obj.foo.bar" =
      .ok (.const42, some (.vobj [("bar", .vfn .const42)])) ∧
    applyFn .const42 (some (.vobj [("bar", .vfn .const42)])) (.vobj []) =
      .ok (.vnum 42) :=
  ⟨rfl, rfl, rfl⟩

/-- C6: `handleRequest` never lets an exception reach the transport layer —
for every incoming request envelope it posts exactly one response wrapper
back to the requester: a rejection synthesized immediately when handler
lookup fails, the handler's result when the (synchronously or
asynchronously) settled handler succeeds, and — when the handler body throws
or its promise rejects — a rejection built from the error after it passed
through the `checkHandlingError` hook, carrying only that error's message
text. -/
theorem claim_C6_handleRequest_always_responds :
    ∀ (hook : PeerError → PeerError) (selfName : String)
      (handlers : List (String × JSVal)) (w : ReqWrapper),
      (handleRequest hook selfName handlers w).length = 1 ∧
      (∀ e, lookupHandler handlers w.handlerDescrip = .error e →
        handleRequest hook selfName handlers w =
          [returnRejection selfName w.fromPeer w.seqNum e]) ∧
      (∀ code prev v, lookupHandler handlers w.handlerDescrip = .ok (code, prev) →
        applyFn code prev w.args = .ok v →
        handleRequest hook selfName handlers w =
          [returnResponse selfName w.fromPeer w.seqNum v]) ∧
      (∀ code prev reason,
        lookupHandler handlers w.handlerDescrip = .ok (code, prev) →
        applyFn code prev w.args = .error reason →
        handleRequest hook selfName handlers w =
          [returnRejection selfName w.fromPeer w.seqNum (hook reason)]) := by
  intro hook selfName handlers w
  refine ⟨?_, ?_, ?_, ?_⟩
  · match hl : lookupHandler handlers w.handlerDescrip with
    | .error e => simp [handleRequest, hl]
    | .ok (code, prev) =>
      match ha : applyFn code prev w.args with
      | .ok v => simp [handleRequest, hl, ha]
      | .error r => simp [handleRequest, hl, ha]
  · intro e hl
    simp [handleRequest, hl]
  · intro code prev v hl ha
    simp [handleRequest, hl, ha]
  · intro code prev reason hl ha
    simp [handleRequest, hl, ha]

theorem claim_C6_witness :
    handleRequest checkHandlingError "A" initialHandlers
        { fromPeer := "B", seqNum := 0, handlerDescrip := "missing", args := .vobj [] } =
      [returnRejection "A" "B" 0 ⟨"Unknown handler: missing"⟩] ∧
    handleRequest checkHandlingError "A" [("f", .vfn .const42)]
        { fromPeer := "B", seqNum := 1, handlerDescrip := "f", args := .vobj [] } =
      [returnResponse "A" "B" 1 (.vnum 42)] ∧
    handleRequest checkHandlingError "A" [("g", .vfn (.throws "boom"))]
        { fromPeer := "B", seqNum := 2, handlerDescrip := "g", args := .vobj [] } =
      [returnRejection "A" "B" 2 (checkHandlingError ⟨"boom"⟩)] := by
  refine ⟨?_, ?_, ?_⟩
  · exact (claim_C6_handleRequest_always_responds checkHandlingError "A" initialHandlers
      { fromPeer := "B", seqNum := 0, handlerDescrip := "missing", args := .vobj [] }).2.1
      ⟨"Unknown handler: missing"⟩ rfl
  · exact (claim_C6_handleRequest_always_responds checkHandlingError "A"
      [("f", .vfn .const42)]
      { fromPeer := "B", seqNum := 1, handlerDescrip := "f", args := .vobj [] }).2.2.1
      .const42 none (.vnum 42) rfl rfl
  · exact (claim_C6_handleRequest_always_responds checkHandlingError "A"
      [("g", .vfn (.throws "boom"))]
      { fromPeer := "B", seqNum := 2, handlerDescrip := "g", args := .vobj [] }).2.2.2
      (.throws "boom") none ⟨"boom"⟩ rfl rfl

/-! ## Lemmas: error reconstitution -/

theorem constructKnown_eq_none_of_unknown (tag : String) (d : Json)
    (h : tag ∉ knownErrorClassNames) : constructKnown tag d = none := by
  simp only [knownErrorClassNames, List.mem_cons, List.mem_singleton, not_or,
    List.not_mem_nil] at h
  obtain ⟨h1, h2, h3, h4, h5⟩ := h
  simp [constructKnown, h1, h2, h3, h4, h5]

theorem reconstitute_roundtrip (k : KnownError) :
    reconstituteError ⟨.jsonText k.serialize⟩ = .rebuilt k := by
  cases k with
  | extensionUnavailable m =>
    simp [reconstituteError, KnownError.serialize, KnownError.className,
      serializeFields, jsonTruthy, getField, aget, constructKnown,
      errorMessageArg, jsToString]
  | lackingHostPermission url =>
    cases url <;>
      simp [reconstituteError, KnownError.serialize, KnownError.className,
        serializeFields, optField, jsonTruthy, getField, aget, constructKnown]
  | fetchResolvedNotOk ok status statusText type url =>
    cases ok <;> cases status <;> cases statusText <;> cases type <;> cases url <;>
      simp [reconstituteError, KnownError.serialize, KnownError.className,
        serializeFields, optField, jsonTruthy, getField, aget, constructKnown]
  | fetchRejected ok status statusText type url =>
    cases ok <;> cases status <;> cases statusText <;> cases type <;> cases url <;>
      simp [reconstituteError, KnownError.serialize, KnownError.className,
        serializeFields, optField, jsonTruthy, getField, aget, constructKnown]
  | fetchWrongContentType ok status statusText type url contentType =>
    cases ok <;> cases status <;> cases statusText <;> cases type <;> cases url <;>
      cases contentType <;>
      simp [reconstituteError, KnownError.serialize, KnownError.className,
        serializeFields, optField, jsonTruthy, getField, aget, constructKnown]

/-- C8: serialization of the registered error classes round-trips —
reconstituting a generic `Error` whose message is `e.serialize()` rebuilds a
new instance of `e`'s class with the same plain-data fields — while an
`Error` whose message is not valid JSON, or parses to a document without a
registered `_error_class_name` tag, is returned as given; `reconstituteError`
itself never throws. -/
theorem claim_C8_error_roundtrip_and_fallback :
    (∀ k : KnownError,
      reconstituteError ⟨.jsonText k.serialize⟩ = .rebuilt k) ∧
    (∀ s : String,
      reconstituteError ⟨.plainText s⟩ = .given ⟨.plainText s⟩) ∧
    (∀ d : Json, hasKnownTag d = false →
      reconstituteError ⟨.jsonText d⟩ = .given ⟨.jsonText d⟩) := by
  refine ⟨reconstitute_roundtrip, fun s => rfl, ?_⟩
  intro d h
  by_cases ht : jsonTruthy d
  case neg => simp [reconstituteError, ht]
  case pos =>
    match hg : getField d "_error_class_name" with
    | none => simp [reconstituteError, ht, hg]
    | some .jnull => simp [reconstituteError, ht, hg]
    | some (.jbool b) => simp [reconstituteError, ht, hg]
    | some (.jnum n) => simp [reconstituteError, ht, hg]
    | some (.jarr es) => simp [reconstituteError, ht, hg]
    | some (.jobj fs) => simp [reconstituteError, ht, hg]
    | some (.jstr tag) =>
      have hmem : tag ∉ knownErrorClassNames := by
        simp only [hasKnownTag, hg] at h
        exact of_decide_eq_false h
      simp [reconstituteError, ht, hg, constructKnown_eq_none_of_unknown tag d hmem]

theorem claim_C8_witness :
    reconstituteError
        ⟨.jsonText (KnownError.lackingHostPermission
          (some (.jstr "https://example.org"))).serialize⟩ =
      .rebuilt (.lackingHostPermission (some (.jstr "https://example.org"))) ∧
    reconstituteError ⟨.plainText "not valid json"⟩ =
      .given ⟨.plainText "not valid json"⟩ ∧
    hasKnownTag (.jobj [("_error_class_name", .jstr "SomeOtherError")]) = false ∧
    reconstituteError ⟨.jsonText (.jobj [("_error_class_name", .jstr "SomeOtherError")])⟩ =
      .given ⟨.jsonText (.jobj [("_error_class_name", .jstr "SomeOtherError")])⟩ := by
  refine ⟨?_, ?_, ?_, ?_⟩
  · exact claim_C8_error_roundtrip_and_fallback.1
      (.lackingHostPermission (some (.jstr "https://example.org")))
  · exact claim_C8_error_roundtrip_and_fallback.2.1 "not valid json"
  · rfl
  · exact claim_C8_error_roundtrip_and_fallback.2.2
      (.jobj [("_error_class_name", .jstr "SomeOtherError")]) rfl

/-! ## Lemmas: the window-number recomputation -/

theorem sortedMembers_sorted [LinearOrder β] (l : List (String × β)) :
    (sortedMembers l).Sorted (birthdayLE (β := β)) :=
  List.sorted_insertionSort _ l

theorem sortedMembers_perm [LinearOrder β] (l : List (String × β)) :
    List.Perm (sortedMembers l) l :=
  List.perm_insertionSort _ l

/-- With pairwise-distinct birthdays the sorted member array is sorted
strictly. -/
theorem sortedMembers_strict [LinearOrder β] (l : List (String × β))
    (h : (l.map Prod.snd).Nodup) :
    (sortedMembers l).Pairwise (fun p q => p.2 < q.2) := by
  have hnd : ((sortedMembers l).map Prod.snd).Nodup :=
    ((sortedMembers_perm l).map Prod.snd).nodup_iff.mpr h
  have hne : (sortedMembers l).Pairwise (fun p q => p.2 ≠ q.2) :=
    List.pairwise_map.mp hnd
  have hle : (sortedMembers l).Pairwise (birthdayLE (β := β)) :=
    sortedMembers_sorted l
  exact (hle.and hne).imp (fun hpq => lt_of_le_of_ne hpq.1 hpq.2)

/-- In a strictly sorted array, the number of entries with a birthday below
that of entry `i` is exactly `i`. -/
theorem countP_get_of_strict [LinearOrder β] (A : List (String × β))
    (hA : A.Pairwise (fun p q => p.2 < q.2)) (i : Nat) (hi : i < A.length) :
    A.countP (fun p => decide (p.2 < (A.get ⟨i, hi⟩).2)) = i := by
  induction A generalizing i with
  | nil => simp at hi
  | cons x t ih =>
    obtain ⟨hx, ht⟩ := List.pairwise_cons.mp hA
    cases i with
    | zero =>
      rw [List.countP_eq_zero.mpr]
      intro p hp
      rcases List.mem_cons.mp hp with rfl | hpt
      · simp [List.get]
      · simp only [List.get, decide_eq_true_eq]
        exact not_lt.mpr (le_of_lt (hx p hpt))
    | succ j =>
      have hj : j < t.length := Nat.lt_of_succ_lt_succ hi
      have hget : (x :: t).get ⟨j + 1, hi⟩ = t.get ⟨j, hj⟩ := rfl
      rw [hget, List.countP_cons, ih ht j hj, if_pos]
      simp only [decide_eq_true_eq]
      exact hx _ (t.get_mem j hj)

/-- Membership in the numbered list built from an enumerated array. -/
theorem mem_map_enumFrom_iff (l : List (String × β)) (n k : Nat) (nm : String) :
    (k, nm) ∈ (l.enumFrom n).map (fun p => (p.1 + 1, p.2.1)) ↔
      ∃ i, ∃ h : i < l.length, k = n + i + 1 ∧ (l.get ⟨i, h⟩).1 = nm := by
  induction l generalizing n with
  | nil => simp
  | cons x t ih =>
    simp only [List.enumFrom_cons, List.map_cons, List.mem_cons, ih (n + 1),
      Prod.mk.injEq]
    constructor
    · rintro (⟨rfl, rfl⟩ | ⟨i, h, rfl, hget⟩)
      · exact ⟨0, Nat.succ_pos _, by omega, rfl⟩
      · exact ⟨i + 1, Nat.succ_lt_succ h, by omega, hget⟩
    · rintro ⟨i, h, rfl, hget⟩
      cases i with
      | zero => exact Or.inl ⟨by omega, hget.symm⟩
      | succ j =>
        exact Or.inr ⟨j, Nat.lt_of_succ_lt_succ h, by omega, hget⟩

theorem mem_recomputeMapping_iff [LinearOrder β] (members : List (String × β))
    (k : Nat) (nm : String) :
    (k, nm) ∈ recomputeMapping members ↔
      ∃ i, ∃ h : i < (sortedMembers members).length,
        k = i + 1 ∧ ((sortedMembers members).get ⟨i, h⟩).1 = nm := by
  have : recomputeMapping members =
      ((sortedMembers members).enumFrom 0).map (fun p => (p.1 + 1, p.2.1)) := rfl
  rw [this, mem_map_enumFrom_iff]
  constructor
  · rintro ⟨i, h, rfl, hget⟩
    exact ⟨i, h, by omega, hget⟩
  · rintro ⟨i, h, rfl, hget⟩
    exact ⟨i, h, by omega, hget⟩

/-- The rank characterization of the recomputed mapping, for pairwise
distinct birthdays: window number `k` belongs to `nm` exactly when some
member `(nm, b)` has exactly `k - 1` members with smaller birthdays. -/
theorem recomputeMapping_rank [LinearOrder β] (members : List (String × β))
    (hb : (members.map Prod.snd).Nodup) (k : Nat) (nm : String) :
    (k, nm) ∈ recomputeMapping members ↔
      ∃ b, (nm, b) ∈ members ∧
        k = members.countP (fun p => decide (p.2 < b)) + 1 := by
  have hstrict := sortedMembers_strict members hb
  have hperm := sortedMembers_perm members
  rw [mem_recomputeMapping_iff]
  constructor
  · rintro ⟨i, h, rfl, hget⟩
    refine ⟨((sortedMembers members).get ⟨i, h⟩).2, ?_, ?_⟩
    · rw [← hget]
      exact hperm.mem_iff.mp ((sortedMembers members).get_mem i h)
    · rw [← hperm.countP_eq, countP_get_of_strict _ hstrict i h]
  · rintro ⟨b, hmem, rfl⟩
    have hmemA : (nm, b) ∈ sortedMembers members := hperm.mem_iff.mpr hmem
    obtain ⟨⟨i, hi⟩, hget⟩ := List.mem_iff_get.mp hmemA
    refine ⟨i, hi, ?_, by rw [hget]⟩
    have : (sortedMembers members).get ⟨i, hi⟩ = (nm, b) := hget
    rw [← hperm.countP_eq]
    rw [show b = ((sortedMembers members).get ⟨i, hi⟩).2 by rw [this]]
    rw [countP_get_of_strict _ hstrict i hi]

/-- The keys of the recomputed mapping are exactly `1..N`. -/
theorem recomputeMapping_dense [LinearOrder β] (members : List (String × β))
    (k : Nat) :
    (∃ nm, (k, nm) ∈ recomputeMapping members) ↔
      1 ≤ k ∧ k ≤ members.length := by
  have hlen : (sortedMembers members).length = members.length :=
    (sortedMembers_perm members).length_eq
  constructor
  · rintro ⟨nm, hm⟩
    obtain ⟨i, h, rfl, _⟩ := (mem_recomputeMapping_iff members _ nm).mp hm
    omega
  · rintro ⟨h1, h2⟩
    have hi : k - 1 < (sortedMembers members).length := by omega
    refine ⟨((sortedMembers members).get ⟨k - 1, hi⟩).1,
      (mem_recomputeMapping_iff members _ _).mpr ⟨k - 1, hi, by omega, rfl⟩⟩

/-- The window-number keys of the recomputed mapping contain no
duplicates. -/
theorem recomputeMapping_keys_nodup [LinearOrder β]
    (members : List (String × β)) :
    (akeys (recomputeMapping members)).Nodup := by
  have hk : akeys (recomputeMapping members) =
      ((sortedMembers members).enum.map Prod.fst).map (fun a => a + 1) := by
    simp only [akeys, recomputeMapping, List.map_map]
    rfl
  rw [hk, List.enum_map_fst]
  exact ((List.nodup_range _).map (fun a b => by omega))

/-- Recomputation `recomputeWindowNumbers` installs exactly `recomputeMapping` of the
member map and leaves the member map itself unchanged. -/
theorem recomputeWindowNumbers_mapping [LinearOrder β] (st : WPState β) :
    (recomputeWindowNumbers st).1.windowNumbersToPeerNames =
        recomputeMapping st.peerNamesToBirthdays ∧
      (recomputeWindowNumbers st).1.peerNamesToBirthdays =
        st.peerNamesToBirthdays :=
  ⟨rfl, rfl⟩

/-- After any operation sequence from a fresh peer, the published mapping is
the recomputation of the current member map. -/
theorem applyOps_mapping_sync [LinearOrder β] (ops : List (WPOp β))
    (st : WPState β)
    (h : st.windowNumbersToPeerNames = recomputeMapping st.peerNamesToBirthdays) :
    (applyOps st ops).windowNumbersToPeerNames =
      recomputeMapping (applyOps st ops).peerNamesToBirthdays := by
  induction ops generalizing st with
  | nil => exact h
  | cons op rest ih =>
    have hstep : (applyOp st op).windowNumbersToPeerNames =
        recomputeMapping (applyOp st op).peerNamesToBirthdays := by
      cases op with
      | add name birthday => exact (recomputeWindowNumbers_mapping _).1
      | remove name =>
        by_cases hp : (aget st.peerNamesToBirthdays name).isSome
        · simp only [applyOp, removePeer, hp, if_true]
          exact (recomputeWindowNumbers_mapping _).1
        · simp only [applyOp, removePeer, hp, if_false]
          exact h
    exact ih (applyOp st op) hstep

/-- C3: after any sequence of `addPeer`/`removePeer` calls with pairwise
distinct birthdays, `windowNumbersToPeerNames` is exactly the map sending
`i + 1` to the member with the `i`-th smallest birthday (window number `k`
belongs to `nm` iff `nm`'s birthday beats exactly `k - 1` members), its keys
are the dense, duplicate-free range `1..N` — so removing the member numbered
2 from a three-member group renumbers the survivors to `{1, 2}` with the
former member 3 now member 2 — and any two peers holding equal member sets
compute identical mappings. -/
theorem claim_C3_window_mapping :
    (∀ (β : Type) (_inst : LinearOrder β) (name : String) (ops : List (WPOp β)),
      (((applyOps (initWP name) ops).peerNamesToBirthdays.map Prod.snd).Nodup) →
      (∀ k nm,
        (k, nm) ∈ (applyOps (initWP name) ops).windowNumbersToPeerNames ↔
          ∃ b, (nm, b) ∈ (applyOps (initWP name) ops).peerNamesToBirthdays ∧
            k = (applyOps (initWP name) ops).peerNamesToBirthdays.countP
                  (fun p => decide (p.2 < b)) + 1) ∧
      (∀ k,
        (∃ nm, (k, nm) ∈ (applyOps (initWP name) ops).windowNumbersToPeerNames) ↔
          1 ≤ k ∧ k ≤ (applyOps (initWP name) ops).peerNamesToBirthdays.length) ∧
      (akeys (applyOps (initWP name) ops).windowNumbersToPeerNames).Nodup) ∧
    ((applyOps (initWP (β := Nat) "a")
        [.add "a" 10, .add "b" 20, .add "c" 30]).windowNumbersToPeerNames =
          [(1, "a"), (2, "b"), (3, "c")] ∧
      (applyOps (initWP (β := Nat) "a")
        [.add "a" 10, .add "b" 20, .add "c" 30,
         .remove "b"]).windowNumbersToPeerNames =
          [(1, "a"), (2, "c")]) ∧
    (∀ (β : Type) (_inst : LinearOrder β) (l₁ l₂ : List (String × β)),
      List.Perm l₁ l₂ → (l₂.map Prod.snd).Nodup →
      recomputeMapping l₁ = recomputeMapping l₂) := by
  refine ⟨?_, ⟨rfl, rfl⟩, ?_⟩
  · intro β _inst name ops h
    have hsync : (applyOps (initWP name) ops).windowNumbersToPeerNames =
        recomputeMapping (applyOps (initWP name) ops).peerNamesToBirthdays :=
      applyOps_mapping_sync ops (initWP name) rfl
    rw [hsync]
    exact ⟨fun k nm => recomputeMapping_rank _ h k nm,
      fun k => recomputeMapping_dense _ k,
      recomputeMapping_keys_nodup _⟩
  · intro β _inst l₁ l₂ hperm hnd
    have hnd₁ : (l₁.map Prod.snd).Nodup := ((hperm.map Prod.snd).nodup_iff).mpr hnd
    have hA : sortedMembers l₁ = sortedMembers l₂ := by
      have hp : List.Perm (sortedMembers l₁) (sortedMembers l₂) :=
        ((sortedMembers_perm l₁).trans hperm).trans (sortedMembers_perm l₂).symm
      have hs₁ : List.Sorted (fun p q : String × β => p.2 < q.2) (sortedMembers l₁) :=
        sortedMembers_strict l₁ hnd₁
      have hs₂ : List.Sorted (fun p q : String × β => p.2 < q.2) (sortedMembers l₂) :=
        sortedMembers_strict l₂ hnd
      exact @List.eq_of_perm_of_sorted _ (fun p q => p.2 < q.2)
        ⟨fun a b h1 h2 => absurd (lt_trans h1 h2) (lt_irrefl _)⟩ _ _ hp hs₁ hs₂
    simp [recomputeMapping, hA]

theorem claim_C3_witness :
    (((applyOps (initWP (β := Nat) "a")
        [.add "a" 10, .add "b" 20, .add "c" 30,
         .remove "b"]).peerNamesToBirthdays.map Prod.snd).Nodup) ∧
    (∃ nm, (2, nm) ∈ (applyOps (initWP (β := Nat) "a")
        [.add "a" 10, .add "b" 20, .add "c" 30,
         .remove "b"]).windowNumbersToPeerNames) ∧
    (akeys (applyOps (initWP (β := Nat) "a")
        [.add "a" 10, .add "b" 20, .add "c" 30,
         .remove "b"]).windowNumbersToPeerNames).Nodup := by
  refine ⟨by decide, ?_, ?_⟩
  · exact ((claim_C3_window_mapping.1 Nat inferInstance "a"
      [.add "a" 10, .add "b" 20, .add "c" 30, .remove "b"]
      (by decide)).2.1 2).mpr (by decide)
  · exact (claim_C3_window_mapping.1 Nat inferInstance "a"
      [.add "a" 10, .add "b" 20, .add "c" 30, .remove "b"] (by decide)).2.2

/-- C4: immediately after every `recomputeWindowNumbers` on a non-empty
member set with pairwise-distinct birthdays, window number 1 is held by the
member whose birthday is smallest among all current members (and by no one
else). -/
theorem claim_C4_leader_has_min_birthday :
    ∀ (β : Type) (_inst : LinearOrder β) (st : WPState β),
      st.peerNamesToBirthdays ≠ [] →
      (st.peerNamesToBirthdays.map Prod.snd).Nodup →
      ∃ nm b,
        (1, nm) ∈ (recomputeWindowNumbers st).1.windowNumbersToPeerNames ∧
        (nm, b) ∈ st.peerNamesToBirthdays ∧
        (∀ p ∈ st.peerNamesToBirthdays, b ≤ p.2) ∧
        (∀ nm', (1, nm') ∈ (recomputeWindowNumbers st).1.windowNumbersToPeerNames →
          nm' = nm) := by
  intro β _inst st hne _hnd
  have hmap := (recomputeWindowNumbers_mapping st).1
  have hperm := sortedMembers_perm st.peerNamesToBirthdays
  have hlen : 0 < (sortedMembers st.peerNamesToBirthdays).length := by
    rw [hperm.length_eq]
    exact List.length_pos.mpr hne
  obtain ⟨x, t, hxt⟩ : ∃ x t, sortedMembers st.peerNamesToBirthdays = x :: t := by
    cases hAc : sortedMembers st.peerNamesToBirthdays with
    | nil => rw [hAc] at hlen; simp at hlen
    | cons x t => exact ⟨x, t, rfl⟩
  have hget0 : ∀ h : 0 < (sortedMembers st.peerNamesToBirthdays).length,
      (sortedMembers st.peerNamesToBirthdays).get ⟨0, h⟩ = x := by
    intro h
    rw [List.get_of_eq hxt]
    rfl
  refine ⟨x.1, x.2, ?_, ?_, ?_, ?_⟩
  · rw [hmap]
    exact (mem_recomputeMapping_iff _ _ _).mpr
      ⟨0, hlen, rfl, by rw [hget0 hlen]⟩
  · exact hperm.mem_iff.mp (by rw [hxt]; exact List.mem_cons_self x t)
  · intro p hp
    have hpA : p ∈ sortedMembers st.peerNamesToBirthdays := hperm.mem_iff.mpr hp
    rw [hxt] at hpA
    rcases List.mem_cons.mp hpA with rfl | hpt
    · exact le_refl _
    · have hs := sortedMembers_sorted st.peerNamesToBirthdays
      rw [hxt] at hs
      exact (List.pairwise_cons.mp hs).1 p hpt
  · intro nm' hm
    rw [hmap] at hm
    obtain ⟨i, hi, h1, hgi⟩ := (mem_recomputeMapping_iff _ _ _).mp hm
    have : i = 0 := by omega
    subst this
    rw [hget0 hi] at hgi
    exact hgi.symm

theorem claim_C4_witness :
    ∃ nm b,
      (1, nm) ∈ (recomputeWindowNumbers
        { name := "x", peerNamesToBirthdays := [("x", 5), ("y", 3)] :
          WPState Nat }).1.windowNumbersToPeerNames ∧
      (nm, b) ∈ [("x", 5), ("y", 3)] ∧
      (∀ p ∈ [("x", (5 : Nat)), ("y", 3)], b ≤ p.2) ∧
      (∀ nm', (1, nm') ∈ (recomputeWindowNumbers
        { name := "x", peerNamesToBirthdays := [("x", 5), ("y", 3)] :
          WPState Nat }).1.windowNumbersToPeerNames → nm' = nm) :=
  claim_C4_leader_has_min_birthday Nat inferInstance
    { name := "x", peerNamesToBirthdays := [("x", 5), ("y", 3)] }
    (by decide) (by decide)

/-! ## Lemmas: the correlator transition system -/

theorem aget_isSome_iff [DecidableEq α] (l : List (α × β)) (a : α) :
    (aget l a).isSome ↔ a ∈ akeys l := by
  rw [Option.isSome_iff_ne_none, ne_eq, aget_eq_none_iff, not_not]

theorem akeys_aset_of_not_mem [DecidableEq α] (l : List (α × β)) (a : α) (b : β)
    (h : a ∉ akeys l) : akeys (aset l a b) = akeys l ++ [a] := by
  induction l with
  | nil => simp [aset, akeys]
  | cons p t ih =>
    obtain ⟨k, v⟩ := p
    simp only [akeys, List.map_cons, List.mem_cons, not_or] at h
    obtain ⟨hka, hat⟩ := h
    have hk : ¬ (k = a) := fun hh => hka hh.symm
    simp only [aset, if_neg hk, akeys, List.map_cons, List.cons_append,
      List.cons.injEq, true_and]
    exact ih hat

theorem mem_akeys_adel [DecidableEq α] (l : List (α × β)) (a k : α)
    (h : k ∈ akeys (adel l a)) : k ∈ akeys l := by
  induction l with
  | nil => simpa [adel] using h
  | cons p t ih =>
    obtain ⟨k', v⟩ := p
    by_cases hk : k' = a
    · rw [adel, if_pos hk] at h
      exact List.mem_cons_of_mem _ h
    · rw [adel, if_neg hk] at h
      simp only [akeys, List.map_cons, List.mem_cons] at h ⊢
      rcases h with rfl | ht
      · exact Or.inl rfl
      · exact Or.inr (ih ht)

theorem nodup_akeys_adel [DecidableEq α] (l : List (α × β)) (a : α)
    (h : (akeys l).Nodup) : (akeys (adel l a)).Nodup := by
  induction l with
  | nil => simp [adel, akeys]
  | cons p t ih =>
    obtain ⟨k', v⟩ := p
    simp only [akeys, List.map_cons, List.nodup_cons] at h
    by_cases hk : k' = a
    · rw [adel, if_pos hk]
      exact h.2
    · rw [adel, if_neg hk]
      simp only [akeys, List.map_cons, List.nodup_cons]
      exact ⟨fun hmem => h.1 (mem_akeys_adel t a k' hmem), ih h.2⟩

theorem not_mem_akeys_adel_self [DecidableEq α] (l : List (α × β)) (a : α)
    (h : (akeys l).Nodup) : a ∉ akeys (adel l a) := by
  induction l with
  | nil => simp [adel, akeys]
  | cons p t ih =>
    obtain ⟨k', v⟩ := p
    simp only [akeys, List.map_cons, List.nodup_cons] at h
    by_cases hk : k' = a
    · rw [adel, if_pos hk]
      subst hk
      exact h.1
    · rw [adel, if_neg hk]
      simp only [akeys, List.map_cons, List.mem_cons, not_or]
      exact ⟨fun hh => hk hh.symm, ih h.2⟩

/-- The inductive specification of a correlator run: the invariant is
preserved, `nextSeqNum` advances by one per `makeRequest`, the allocated
sequence numbers are the consecutive block starting at the initial
`nextSeqNum`, the settled sequence numbers are pairwise distinct, each of
them was pending at the start or allocated during the run, and all stay
below the final `nextSeqNum`. -/
theorem runPeer_spec (tr : List PeerAction) :
    ∀ st : PeerSt, InvP st →
      InvP (runPeer st tr).1 ∧
      (runPeer st tr).1.nextSeqNum = st.nextSeqNum + countMakeRequests tr ∧
      allocSeqs (runPeer st tr).2 =
        List.range' st.nextSeqNum (countMakeRequests tr) ∧
      (settleSeqs (runPeer st tr).2).Nodup ∧
      (∀ s ∈ settleSeqs (runPeer st tr).2,
        s ∈ akeys st.requestsBySeqNum ∨ s ∈ allocSeqs (runPeer st tr).2) ∧
      (∀ s ∈ settleSeqs (runPeer st tr).2,
        s < st.nextSeqNum + countMakeRequests tr) := by
  induction tr with
  | nil =>
    intro st h
    simpa [runPeer, countMakeRequests, allocSeqs, settleSeqs] using h
  | cons a tr ih =>
    intro st h
    cases a with
    | makeRequest tp =>
      have hn : st.nextSeqNum ∉ akeys st.requestsBySeqNum :=
        fun hmem => lt_irrefl _ (h.2 _ hmem)
      set st' : PeerSt :=
        ⟨st.nextSeqNum + 1, aset st.requestsBySeqNum st.nextSeqNum ⟨tp⟩⟩ with hst'
      have hnx : st'.nextSeqNum = st.nextSeqNum + 1 := by rw [hst']
      have hkeys' : akeys st'.requestsBySeqNum =
          akeys st.requestsBySeqNum ++ [st.nextSeqNum] :=
        akeys_aset_of_not_mem _ _ _ hn
      have hInv' : InvP st' := by
        constructor
        · rw [hkeys', List.nodup_append]
          refine ⟨h.1, List.nodup_singleton _, fun k hk1 hk2 => ?_⟩
          rw [List.mem_singleton] at hk2
          subst hk2
          exact hn hk1
        · intro k hk
          rw [hkeys'] at hk
          rw [hnx]
          rcases List.mem_append.mp hk with hk | hk
          · exact Nat.lt_succ_of_lt (h.2 k hk)
          · rw [List.mem_singleton] at hk
            omega
      obtain ⟨i1, i2, i3, i4, i5, i6⟩ := ih st' hInv'
      have hrun : runPeer st (.makeRequest tp :: tr) =
          ((runPeer st' tr).1, .alloc st.nextSeqNum :: (runPeer st' tr).2) := by
        simp only [runPeer, stepPeer, takeNextSeqNum, hst']
        rfl
      rw [hrun]
      simp only [allocSeqs, settleSeqs, countMakeRequests]
      refine ⟨i1, ?_, ?_, i4, ?_, ?_⟩
      · rw [i2, hnx]
        omega
      · rw [i3, hnx, List.range'_succ]
      · intro s hs
        rcases i5 s hs with hk | ha
        · rw [hkeys'] at hk
          rcases List.mem_append.mp hk with hk | hk
          · exact Or.inl hk
          · rw [List.mem_singleton] at hk
            exact Or.inr (by simp [hk])
        · exact Or.inr (List.mem_cons_of_mem _ ha)
      · intro s hs
        have hb := i6 s hs
        rw [hnx] at hb
        omega
    | deliverResponse w =>
      match ho : aget st.requestsBySeqNum w.seqNum with
      | none =>
        have hdel := adel_of_aget_eq_none _ _ ho
        have hrun : runPeer st (.deliverResponse w :: tr) =
            ((runPeer st tr).1, (runPeer st tr).2) := by
          simp only [runPeer, stepPeer, handleResponse, consumeRequestData, ho,
            hdel, Option.toList_none, List.map_nil, List.nil_append]
        rw [hrun]
        simpa [countMakeRequests] using ih st h
      | some d =>
        have hmem : w.seqNum ∈ akeys st.requestsBySeqNum :=
          (aget_isSome_iff _ _).mp (by rw [ho]; rfl)
        have hlt : w.seqNum < st.nextSeqNum := h.2 _ hmem
        set st' : PeerSt :=
          ⟨st.nextSeqNum, adel st.requestsBySeqNum w.seqNum⟩ with hst'
        have hnx : st'.nextSeqNum = st.nextSeqNum := by rw [hst']
        have hdelk : st'.requestsBySeqNum = adel st.requestsBySeqNum w.seqNum := by
          rw [hst']
        have hInv' : InvP st' := by
          rw [hst']
          exact ⟨nodup_akeys_adel _ _ h.1,
            fun k hk => h.2 k (mem_akeys_adel _ _ _ hk)⟩
        obtain ⟨i1, i2, i3, i4, i5, i6⟩ := ih st' hInv'
        have hnotrest : w.seqNum ∉ settleSeqs (runPeer st' tr).2 := by
          intro hmem'
          rcases i5 _ hmem' with hk | ha
          · rw [hdelk] at hk
            exact not_mem_akeys_adel_self _ _ h.1 hk
          · rw [i3, hnx] at ha
            have hge := (List.mem_range'_1.mp ha).1
            omega
        obtain ⟨ev, hev, hseq⟩ :
            ∃ ev, runPeer st (.deliverResponse w :: tr) =
              ((runPeer st' tr).1, .settle ev :: (runPeer st' tr).2) ∧
              seqOfSettle ev = w.seqNum := by
          by_cases hr : strTruthy w.rejection_reason
          · refine ⟨.rejected w.seqNum (w.rejection_reason.getD ""), ?_, rfl⟩
            simp only [runPeer, stepPeer, handleResponse, consumeRequestData,
              ho, hr, if_true, hst']
            rfl
          · refine ⟨.resolved w.seqNum w.result, ?_, rfl⟩
            simp only [runPeer, stepPeer, handleResponse, consumeRequestData,
              ho, hr, if_false, hst']
            rfl
        rw [hev]
        simp only [allocSeqs, settleSeqs, countMakeRequests, hseq]
        refine ⟨i1, ?_, ?_, ?_, ?_, ?_⟩
        · rw [i2, hnx]
        · rw [i3, hnx]
        · exact List.nodup_cons.mpr ⟨hnotrest, i4⟩
        · intro s hs
          rcases List.mem_cons.mp hs with rfl | hs'
          · exact Or.inl hmem
          · rcases i5 s hs' with hk | ha
            · rw [hdelk] at hk
              exact Or.inl (mem_akeys_adel _ _ _ hk)
            · exact Or.inr ha
        · intro s hs
          rcases List.mem_cons.mp hs with rfl | hs'
          · omega
          · have hb := i6 s hs'
            rw [hnx] at hb
            omega
    | fireTimeout tn =>
      match ho : aget st.requestsBySeqNum tn with
      | none =>
        have hdel := adel_of_aget_eq_none _ _ ho
        have hrun : runPeer st (.fireTimeout tn :: tr) =
            ((runPeer st tr).1, (runPeer st tr).2) := by
          simp only [runPeer, stepPeer, consumeRequestData, ho, hdel,
            List.nil_append]
        rw [hrun]
        simpa [countMakeRequests] using ih st h
      | some d =>
        have hmem : tn ∈ akeys st.requestsBySeqNum :=
          (aget_isSome_iff _ _).mp (by rw [ho]; rfl)
        have hlt : tn < st.nextSeqNum := h.2 _ hmem
        set st' : PeerSt := ⟨st.nextSeqNum, adel st.requestsBySeqNum tn⟩ with hst'
        have hnx : st'.nextSeqNum = st.nextSeqNum := by rw [hst']
        have hdelk : st'.requestsBySeqNum = adel st.requestsBySeqNum tn := by
          rw [hst']
        have hInv' : InvP st' := by
          rw [hst']
          exact ⟨nodup_akeys_adel _ _ h.1,
            fun k hk => h.2 k (mem_akeys_adel _ _ _ hk)⟩
        obtain ⟨i1, i2, i3, i4, i5, i6⟩ := ih st' hInv'
        have hnotrest : tn ∉ settleSeqs (runPeer st' tr).2 := by
          intro hmem'
          rcases i5 _ hmem' with hk | ha
          · rw [hdelk] at hk
            exact not_mem_akeys_adel_self _ _ h.1 hk
          · rw [i3, hnx] at ha
            have hge := (List.mem_range'_1.mp ha).1
            omega
        have hrun : runPeer st (.fireTimeout tn :: tr) =
            ((runPeer st' tr).1,
             .settle (.timedOut tn) :: (runPeer st' tr).2) := by
          simp only [runPeer, stepPeer, consumeRequestData, ho, hst']
          rfl
        rw [hrun]
        simp only [allocSeqs, settleSeqs, countMakeRequests, seqOfSettle]
        refine ⟨i1, ?_, ?_, ?_, ?_, ?_⟩
        · rw [i2, hnx]
        · rw [i3, hnx]
        · exact List.nodup_cons.mpr ⟨hnotrest, i4⟩
        · intro s hs
          rcases List.mem_cons.mp hs with rfl | hs'
          · exact Or.inl hmem
          · rcases i5 s hs' with hk | ha
            · rw [hdelk] at hk
              exact Or.inl (mem_akeys_adel _ _ _ hk)
            · exact Or.inr ha
        · intro s hs
          rcases List.mem_cons.mp hs with rfl | hs'
          · omega
          · have hb := i6 s hs'
            rw [hnx] at hb
            omega

/-- C1: over every interleaving of `makeRequest` calls, response deliveries
and timeout firings on one peer, the sequence numbers handed out by
`takeNextSeqNum` are the strictly increasing run `0, 1, 2, …` (so no two
in-flight entries of `requestsBySeqNum` ever share one, and the pending
table always satisfies the correlator invariant), and each request's promise
settles at most once — by a matching response, by a rejection response, or by
a timeout — and only for a previously allocated sequence number; settlement
consumes the pending entry, so no promise is ever settled twice or both
resolved and rejected. -/
theorem claim_C1_fresh_seqnums_and_single_settlement :
    ∀ tr : List PeerAction,
      InvP (runPeer initPeer tr).1 ∧
      allocSeqs (runPeer initPeer tr).2 = List.range (countMakeRequests tr) ∧
      (settleSeqs (runPeer initPeer tr).2).Nodup ∧
      (∀ s ∈ settleSeqs (runPeer initPeer tr).2,
        s ∈ allocSeqs (runPeer initPeer tr).2) := by
  intro tr
  have h0 : InvP initPeer := ⟨List.nodup_nil, by simp [initPeer, akeys]⟩
  obtain ⟨h1, h2, h3, h4, h5, h6⟩ := runPeer_spec tr initPeer h0
  refine ⟨h1, ?_, h4, ?_⟩
  · rw [h3, List.range_eq_range']
    rfl
  · intro s hs
    rcases h5 s hs with hk | ha
    · simp [initPeer, akeys] at hk
    · exact ha

end BrowserPeers
